import Mathlib

/-!
Verification of the seutils storage-element utility library.

The Python sources are shallowly embedded: Python strings become `List Char`,
subprocess invocations become explicit oracle parameters describing the
behaviour of the spawned tool, exceptions become `Except` values, and the
process-wide defaults (`DEFAULT_MGM`, `USE_CACHE`) become explicit parameters.
-/

namespace Seutils

/-- Characters of a Python string. -/
abbrev Str := List Char

/-- Convert a Lean string literal to the character-list representation. -/
def str (s : String) : Str := s.data

/-- Error outcomes of the embedded Python code.  Python raises exceptions;
each constructor records which `raise` site (or interpreter error) fired. -/
inductive Err where
  | noProtocol      -- split_protocol_pfn: no '://' in the filename
  | malformedPfn    -- split_protocol_pfn: no '//' in the part after the protocol
  | conflictingMgm  -- split_mgm: mgm from path and passed mgm disagree
  | lfnNoSlash      -- lfn does not start with '/'
  | noDefaultMgm    -- get_default_mgm with DEFAULT_MGM unset
  | nameErr         -- python NameError (an undefined variable was referenced)
  | calledProcess (code : Int)  -- subprocess.CalledProcessError
  | runtimeErr      -- RuntimeError
  | pathNotExist    -- ls: path does not exist
  | notADirectory   -- listdir / walk: path is not a directory
  | maxRecursion    -- walk reached MAX_RECURSION_DEPTH
  | fuelOut         -- artifact of the embedding: recursion fuel exhausted
deriving DecidableEq

/-- Whether `sep` is a prefix of the second list. -/
def isPre : Str → Str → Bool
  | [], _ => true
  | _ :: _, [] => false
  | a :: as, b :: bs => if a = b then isPre as bs else false

/-- Split at the first occurrence of `sep` (Python `s.split(sep, 1)` when the
separator occurs; `none` models the separator being absent). -/
def splitOnce (sep : Str) : Str → Option (Str × Str)
  | [] => none
  | c :: rest =>
    if isPre sep (c :: rest) then some ([], List.drop sep.length (c :: rest))
    else
      match splitOnce sep rest with
      | some (pre, post) => some (c :: pre, post)
      | none => none

/-- The separator `"://"`. -/
def protoSep : Str := [':', '/', '/']

/-- The separator `"//"`. -/
def slashSep : Str := ['/', '/']

/-- Python `has_protocol`: `'://' in filename`. -/
def has_protocol (filename : Str) : Bool := (splitOnce protoSep filename).isSome

/-- Last character of a string, if any. -/
def lastChar? : Str → Option Char
  | [] => none
  | [c] => some c
  | _ :: c :: rest => lastChar? (c :: rest)

/-- Whether the string contains two adjacent slashes. -/
def hasDoubleSlash : Str → Bool
  | [] => false
  | [_] => false
  | a :: b :: rest => if a = '/' ∧ b = '/' then true else hasDoubleSlash (b :: rest)

/-- Python `s.startswith('/')`. -/
def startsWithSlash : Str → Bool
  | '/' :: _ => true
  | _ => false

/-- Python `split_protocol_pfn`: protocol, server and logical file name of a
physical file name.  Raises when the format-ensuring checks fail. -/
def split_protocol_pfn (filename : Str) : Except Err (Str × Str × Str) :=
  match splitOnce protoSep filename with
  | none => .error .noProtocol
  | some (protocol, rest) =>
    match splitOnce slashSep rest with
    | none => .error .malformedPfn
    | some (server, lfn0) => .ok (protocol, server, '/' :: lfn0)

/-- Python `_split_mgm_pfn`: mgm and logical file name of a physical file name. -/
def split_mgm_pfn (filename : Str) : Except Err (Str × Str) :=
  match split_protocol_pfn filename with
  | .error e => .error e
  | .ok (protocol, server, lfn) => .ok (protocol ++ protoSep ++ server, lfn)

/-- Python `_join_mgm_lfn`: joins mgm and lfn, ensuring correct formatting. -/
def join_mgm_lfn (mgm lfn : Str) : Except Err Str :=
  if startsWithSlash lfn = false then .error .lfnNoSlash
  else if lastChar? mgm = some '/' then .ok (mgm ++ lfn)
  else .ok (mgm ++ ['/'] ++ lfn)

/-- Python `split_mgm(path, mgm=None)`.  `dflt` models the process-wide
`DEFAULT_MGM`; `mgm?` is the optional `mgm` argument. -/
def split_mgm (dflt : Option Str) (mgm? : Option Str) (path : Str) :
    Except Err (Str × Str) :=
  if has_protocol path then
    match split_mgm_pfn path with
    | .error e => .error e
    | .ok (mgmFromPath, lfn) =>
      match mgm? with
      | some m =>
        if mgmFromPath ≠ m then .error .conflictingMgm
        else if startsWithSlash lfn = false then .error .lfnNoSlash
        else .ok (mgmFromPath, lfn)
      | none =>
        if startsWithSlash lfn = false then .error .lfnNoSlash
        else .ok (mgmFromPath, lfn)
  else
    match mgm? with
    | none =>
      match dflt with
      | none => .error .noDefaultMgm
      | some d =>
        if startsWithSlash path = false then .error .lfnNoSlash
        else .ok (d, path)
    | some m =>
      if startsWithSlash path = false then .error .lfnNoSlash
      else .ok (m, path)

/-- Python `format(path, mgm=None)`: ensure the path is a full path on the SE. -/
def format (dflt : Option Str) (mgm? : Option Str) (path : Str) : Except Err Str :=
  match split_mgm dflt mgm? path with
  | .error e => .error e
  | .ok (mgm, lfn) => join_mgm_lfn mgm lfn

-- ______________________________________________________________________
-- Lemmas about `splitOnce`

theorem isPre_self_append (s t : Str) : isPre s (s ++ t) = true := by
  induction s with
  | nil => rfl
  | cons c cs ih => simpa [isPre] using ih

theorem isPre_decomp {sep l : Str} (h : isPre sep l = true) :
    sep ++ List.drop sep.length l = l := by
  induction sep generalizing l with
  | nil => simp
  | cons c cs ih =>
    cases l with
    | nil => simp [isPre] at h
    | cons d ds =>
      simp only [isPre] at h
      split at h
      · next heq =>
        subst heq
        simpa [List.length_cons] using ih h
      · simp at h

/-- Soundness of `splitOnce`: a successful split decomposes the string. -/
theorem splitOnce_sound {sep s a b : Str} (h : splitOnce sep s = some (a, b)) :
    s = a ++ sep ++ b := by
  induction s generalizing a b with
  | nil => simp [splitOnce] at h
  | cons c cs ih =>
    simp only [splitOnce] at h
    by_cases hp : isPre sep (c :: cs) = true
    · rw [if_pos hp] at h
      obtain ⟨h1, h2⟩ : ([] : Str) = a ∧ List.drop sep.length (c :: cs) = b := by
        simpa using h
      subst h1
      subst h2
      simpa using (isPre_decomp hp).symm
    · rw [if_neg hp] at h
      cases hsp : splitOnce sep cs with
      | none => rw [hsp] at h; exact absurd h (by simp)
      | some p =>
        obtain ⟨p1, p2⟩ := p
        rw [hsp] at h
        obtain ⟨h1, h2⟩ : c :: p1 = a ∧ p2 = b := by simpa using h
        subst h1
        subst h2
        have hd := ih hsp
        simp [hd]

theorem isPre_cons_ne {a b : Char} (s t : Str) (h : a ≠ b) :
    isPre (a :: s) (b :: t) = false := by
  simp only [isPre]
  rw [if_neg h]

/-- When no character of `a` equals the separator's head character, the first
occurrence of the separator in `a ++ sep ++ b` is exactly after `a`. -/
theorem splitOnce_append {h0 : Char} {sep' a b : Str} (ha : ∀ c ∈ a, c ≠ h0) :
    splitOnce (h0 :: sep') (a ++ (h0 :: sep') ++ b) = some (a, b) := by
  induction a with
  | nil =>
    have hpre : isPre (h0 :: sep') (h0 :: (sep' ++ b)) = true := by
      simpa using isPre_self_append (h0 :: sep') b
    simp only [List.nil_append, List.cons_append, List.append_assoc, splitOnce,
      List.append_eq]
    rw [if_pos hpre]
    simp [List.drop_left]
  | cons c a' ih =>
    have hc : c ≠ h0 := ha c (by simp)
    have ih' := ih (fun x hx => ha x (List.mem_cons_of_mem c hx))
    simp only [List.cons_append, List.append_assoc] at ih' ⊢
    simp only [splitOnce, List.append_eq]
    rw [if_neg (by simp [isPre_cons_ne _ _ (Ne.symm hc)]), ih']

/-- The part before the first `"//"` neither contains `"//"` nor ends in `'/'`:
packaged as `hasDoubleSlash (a ++ ['/']) = false`. -/
theorem splitOnce_slash_noDS {s a b : Str}
    (h : splitOnce slashSep s = some (a, b)) :
    hasDoubleSlash (a ++ ['/']) = false := by
  induction s generalizing a b with
  | nil => simp [splitOnce] at h
  | cons c cs ih =>
    simp only [splitOnce] at h
    by_cases hp : isPre slashSep (c :: cs) = true
    · rw [if_pos hp] at h
      obtain ⟨h1, _⟩ : ([] : Str) = a ∧ List.drop slashSep.length (c :: cs) = b := by
        simpa using h
      subst h1
      rfl
    · rw [if_neg hp] at h
      cases hsp : splitOnce slashSep cs with
      | none => rw [hsp] at h; exact absurd h (by simp)
      | some p =>
        obtain ⟨p1, p2⟩ := p
        rw [hsp] at h
        obtain ⟨h1, h2⟩ : c :: p1 = a ∧ p2 = b := by simpa using h
        subst h1
        subst h2
        have ihp := ih hsp
        have hsound := splitOnce_sound hsp
        have hne : ¬ (c = '/' ∧ (p1 ++ ['/']).head? = some '/') := by
          rintro ⟨rfl, hx⟩
          cases p1 with
          | nil =>
            rw [hsound] at hp
            simp [slashSep, isPre] at hp
          | cons q qs =>
            simp only [List.cons_append, List.head?] at hx
            injection hx with hq
            subst hq
            rw [hsound] at hp
            simp [slashSep, isPre] at hp
        cases hx : p1 ++ ['/'] with
        | nil => simp at hx
        | cons x xs =>
          simp only [List.cons_append, hx, hasDoubleSlash]
          rw [if_neg]
          · rw [← hx]
            exact ihp
          · rintro ⟨hc, hx2⟩
            exact hne ⟨hc, by rw [hx, hx2]; rfl⟩

theorem lastChar?_append {b : Str} (hb : b ≠ []) (a : Str) :
    lastChar? (a ++ b) = lastChar? b := by
  induction a with
  | nil => rfl
  | cons c a' ih =>
    cases hab : a' ++ b with
    | nil => exact absurd (List.append_eq_nil.mp hab).2 hb
    | cons d t =>
      simp only [List.cons_append, hab, lastChar?]
      rw [← hab]
      exact ih

theorem lastChar?_mem {s : Str} {c : Char} (h : lastChar? s = some c) : c ∈ s := by
  induction s with
  | nil => simp [lastChar?] at h
  | cons d ds ih =>
    cases ds with
    | nil =>
      simp only [lastChar?] at h
      injection h with h'
      simp [h']
    | cons e es =>
      simp only [lastChar?] at h
      simp [ih h]

theorem hasDoubleSlash_of_last_slash {s : Str} (h : lastChar? s = some '/') :
    hasDoubleSlash (s ++ ['/']) = true := by
  induction s with
  | nil => simp [lastChar?] at h
  | cons d ds ih =>
    cases ds with
    | nil =>
      simp only [lastChar?] at h
      injection h with h'
      subst h'
      rfl
    | cons e es =>
      simp only [lastChar?] at h
      have := ih h
      simp only [List.cons_append, hasDoubleSlash]
      split
      · rfl
      · simpa using this

/-- A nonempty server extracted by the `"//"` split never ends in `'/'`. -/
theorem server_not_end_slash {s a b : Str}
    (h : splitOnce slashSep s = some (a, b)) :
    ¬ lastChar? a = some '/' := by
  intro hl
  have h1 := splitOnce_slash_noDS h
  have h2 := hasDoubleSlash_of_last_slash hl
  rw [h1] at h2
  exact absurd h2 (by simp)

theorem lastChar?_ne_none : ∀ {s : Str}, s ≠ [] → ¬ lastChar? s = none := by
  intro s
  induction s with
  | nil => intro h; exact absurd rfl h
  | cons c cs ih =>
    intro _
    cases cs with
    | nil => simp [lastChar?]
    | cons d ds => simpa [lastChar?] using ih (by simp)

theorem splitOnce_proto_append {a b : Str} (ha : ∀ c ∈ a, c ≠ ':') :
    splitOnce protoSep (a ++ protoSep ++ b) = some (a, b) :=
  splitOnce_append ha

theorem splitOnce_slash_append {a b : Str} (ha : ∀ c ∈ a, c ≠ '/') :
    splitOnce slashSep (a ++ slashSep ++ b) = some (a, b) :=
  splitOnce_append ha

theorem split_mgm_pfn_of_splits {s proto rest srv tl : Str}
    (h1 : splitOnce protoSep s = some (proto, rest))
    (h2 : splitOnce slashSep rest = some (srv, tl)) :
    split_mgm_pfn s = .ok (proto ++ protoSep ++ srv, '/' :: tl) := by
  unfold split_mgm_pfn split_protocol_pfn
  rw [h1]
  simp [h2]

theorem split_mgm_of_splits_none {s proto rest srv tl : Str} (dflt : Option Str)
    (h1 : splitOnce protoSep s = some (proto, rest))
    (h2 : splitOnce slashSep rest = some (srv, tl)) :
    split_mgm dflt none s = .ok (proto ++ protoSep ++ srv, '/' :: tl) := by
  unfold split_mgm has_protocol
  rw [h1, split_mgm_pfn_of_splits h1 h2]
  simp [startsWithSlash]

theorem split_mgm_of_splits_some_eq {s proto rest srv tl : Str} (dflt : Option Str)
    (h1 : splitOnce protoSep s = some (proto, rest))
    (h2 : splitOnce slashSep rest = some (srv, tl)) :
    split_mgm dflt (some (proto ++ protoSep ++ srv)) s =
      .ok (proto ++ protoSep ++ srv, '/' :: tl) := by
  unfold split_mgm has_protocol
  rw [h1, split_mgm_pfn_of_splits h1 h2]
  simp [startsWithSlash]

theorem split_mgm_of_splits_some_ne {s proto rest srv tl m2 : Str} (dflt : Option Str)
    (h1 : splitOnce protoSep s = some (proto, rest))
    (h2 : splitOnce slashSep rest = some (srv, tl))
    (hne : proto ++ protoSep ++ srv ≠ m2) :
    split_mgm dflt (some m2) s = .error .conflictingMgm := by
  have hne' : proto ++ (protoSep ++ srv) ≠ m2 := by
    simpa [List.append_assoc] using hne
  unfold split_mgm has_protocol
  rw [h1, split_mgm_pfn_of_splits h1 h2]
  simp [hne']

theorem join_mgm_lfn_eval {mgm lfn : Str} (h1 : startsWithSlash lfn = true)
    (h2 : ¬ lastChar? mgm = some '/') :
    join_mgm_lfn mgm lfn = .ok (mgm ++ ['/'] ++ lfn) := by
  simp [join_mgm_lfn, h1, h2]

theorem lastChar?_mgm {proto srv : Str} (hs : ∀ c ∈ srv, c ≠ '/') (hsne : srv ≠ []) :
    ¬ lastChar? (proto ++ protoSep ++ srv) = some '/' := by
  rw [lastChar?_append hsne]
  intro h
  exact hs _ (lastChar?_mem h) rfl

-- ______________________________________________________________________
-- Claims about the address model (C4, C8, C10)

/-- C4: for every logical path `p = '/' :: q` containing no protocol separator
and every well-formed configured mgm `proto ++ "://" ++ srv` (protocol free of
`':'`, server nonempty and free of `'/'`), resolving `p` against the mgm gives
`(mgm, p)`, joining gives the canonical string, and parsing the joined string
back (with no explicit mgm) returns exactly the same `(mgm, p)` pair:
`split_mgm (format p mgm) = split_mgm p mgm`. -/
theorem mgm_roundtrip (dflt : Option Str) (proto srv q : Str)
    (hp : ∀ c ∈ proto, c ≠ ':') (hs : ∀ c ∈ srv, c ≠ '/') (hsne : srv ≠ [])
    (hq : splitOnce protoSep ('/' :: q) = none) :
    split_mgm dflt (some (proto ++ protoSep ++ srv)) ('/' :: q) =
      .ok (proto ++ protoSep ++ srv, '/' :: q) ∧
    format dflt (some (proto ++ protoSep ++ srv)) ('/' :: q) =
      .ok (proto ++ protoSep ++ srv ++ ['/'] ++ ('/' :: q)) ∧
    split_mgm dflt none (proto ++ protoSep ++ srv ++ ['/'] ++ ('/' :: q)) =
      .ok (proto ++ protoSep ++ srv, '/' :: q) := by
  have hresolve : split_mgm dflt (some (proto ++ protoSep ++ srv)) ('/' :: q) =
      .ok (proto ++ protoSep ++ srv, '/' :: q) := by
    simp [split_mgm, has_protocol, hq, startsWithSlash]
  refine ⟨hresolve, ?_, ?_⟩
  · unfold format
    rw [hresolve]
    show join_mgm_lfn (proto ++ protoSep ++ srv) ('/' :: q) = _
    rw [join_mgm_lfn_eval (show startsWithSlash ('/' :: q) = true from rfl)
      (lastChar?_mgm hs hsne)]
  · have harg : proto ++ protoSep ++ srv ++ ['/'] ++ ('/' :: q) =
        proto ++ protoSep ++ (srv ++ slashSep ++ q) := by
      simp [List.append_assoc, slashSep]
    rw [harg]
    exact split_mgm_of_splits_none dflt
      (splitOnce_proto_append hp) (splitOnce_slash_append hs)

/-- Witness for C4 at the concrete server `root://server` and path `/a/b`. -/
theorem mgm_roundtrip_witness :
    split_mgm none (some (str ("root://server"))) (str ("/a/b")) =
      .ok (str ("root://server"), str ("/a/b")) ∧
    split_mgm none none (str ("root://server//a/b")) =
      .ok (str ("root://server"), str ("/a/b")) := by
  have h := mgm_roundtrip none (str ("root")) (str ("server")) (str ("a/b"))
    (by decide) (by decide) (by decide) (by decide)
  exact ⟨h.1, h.2.2⟩

/-- C10 counterexample: `format` is not idempotent on every string it accepts.
On `root:////a` the parsed server is empty, `format` collapses the address to
`root:///a`, and formatting that output raises (no `"//"` after the protocol),
so `format (format s)` differs from `format s`. -/
theorem format_idempotent_cex :
    format none none (str ("root:////a")) = .ok (str ("root:///a")) ∧
    format none none (str ("root:///a")) = .error .malformedPfn := by
  constructor <;> rfl

/-- C10 (amended): `format` is idempotent on every address whose parsed server
component is nonempty; on such strings `format` is in fact the identity, and in
particular every string produced from them parses back to the same
(server, lfn) pair.  (For an empty parsed server — addresses of the shape
`proto:////...` — idempotence fails, see the counterexample.) -/
theorem format_identity_amended (dflt : Option Str) (s proto rest srv tl : Str)
    (h1 : splitOnce protoSep s = some (proto, rest))
    (h2 : splitOnce slashSep rest = some (srv, tl))
    (hsne : srv ≠ []) :
    format dflt none s = .ok s ∧
    (∀ t, format dflt none s = .ok t → format dflt none t = format dflt none s) := by
  have hnes : ¬ lastChar? (proto ++ protoSep ++ srv) = some '/' := by
    rw [lastChar?_append hsne]
    exact server_not_end_slash h2
  have hid : format dflt none s = .ok s := by
    unfold format
    rw [split_mgm_of_splits_none dflt h1 h2]
    show join_mgm_lfn (proto ++ protoSep ++ srv) ('/' :: tl) = _
    rw [join_mgm_lfn_eval (show startsWithSlash ('/' :: tl) = true from rfl) hnes]
    have hdec : s = proto ++ protoSep ++ (srv ++ slashSep ++ tl) := by
      rw [splitOnce_sound h1, splitOnce_sound h2]
    rw [hdec]
    simp [List.append_assoc, slashSep]
  refine ⟨hid, fun t ht => ?_⟩
  have hts : t = s := by
    have := hid.symm.trans ht
    injection this with h
    exact h.symm
  rw [hts]

/-- Witness for C10 (amended) at the concrete address `root://server//a/b`. -/
theorem format_identity_amended_witness :
    format none none (str ("root://server//a/b")) = .ok (str ("root://server//a/b")) :=
  (format_identity_amended none (str ("root://server//a/b")) (str ("root"))
    (str ("server//a/b")) (str ("server")) (str ("a/b"))
    (by decide) (by decide) (by decide)).1

/-- C8 counterexample: when the embedded and explicitly passed mgm match but the
embedded server is empty, `split_mgm` succeeds yet is not idempotent: rejoining
and resolving again fails (so the claim's unconditional "succeeds and is
idempotent whenever they match" is false on `root:////a` with mgm `root://`). -/
theorem split_mgm_idempotent_cex :
    split_mgm none (some (str ("root://"))) (str ("root:////a")) =
      .ok (str ("root://"), str ("/a")) ∧
    format none (some (str ("root://"))) (str ("root:////a")) =
      .ok (str ("root:///a")) ∧
    split_mgm none (some (str ("root://"))) (str ("root:///a")) =
      .error .malformedPfn := by
  refine ⟨?_, ?_, ?_⟩ <;> rfl

/-- C8 (amended): `split_mgm` fails with the conflicting-mgm error for every
parsable input path whose embedded mgm differs from the explicitly passed one;
when they agree it succeeds, and it is idempotent (joining the resolved pair
reproduces the input path, so re-resolving gives the same pair) provided the
embedded server component is nonempty. -/
theorem split_mgm_conflict_amended (dflt : Option Str)
    (path m2 proto rest srv tl : Str)
    (h1 : splitOnce protoSep path = some (proto, rest))
    (h2 : splitOnce slashSep rest = some (srv, tl)) :
    (proto ++ protoSep ++ srv ≠ m2 →
      split_mgm dflt (some m2) path = .error .conflictingMgm) ∧
    split_mgm dflt (some (proto ++ protoSep ++ srv)) path =
      .ok (proto ++ protoSep ++ srv, '/' :: tl) ∧
    (srv ≠ [] →
      format dflt (some (proto ++ protoSep ++ srv)) path = .ok path) := by
  refine ⟨fun hne => split_mgm_of_splits_some_ne dflt h1 h2 hne,
    split_mgm_of_splits_some_eq dflt h1 h2, fun hsne => ?_⟩
  have hnes : ¬ lastChar? (proto ++ protoSep ++ srv) = some '/' := by
    rw [lastChar?_append hsne]
    exact server_not_end_slash h2
  unfold format
  rw [split_mgm_of_splits_some_eq dflt h1 h2]
  show join_mgm_lfn (proto ++ protoSep ++ srv) ('/' :: tl) = _
  rw [join_mgm_lfn_eval (show startsWithSlash ('/' :: tl) = true from rfl) hnes]
  have hdec : path = proto ++ protoSep ++ (srv ++ slashSep ++ tl) := by
    rw [splitOnce_sound h1, splitOnce_sound h2]
  rw [hdec]
  simp [List.append_assoc, slashSep]

/-- Witness for C8 (amended): a conflicting pair fails, a matching pair succeeds
and rejoins to the input. -/
theorem split_mgm_conflict_amended_witness :
    split_mgm none (some (str ("root://other"))) (str ("root://server//a")) =
      .error .conflictingMgm ∧
    split_mgm none (some (str ("root://server"))) (str ("root://server//a")) =
      .ok (str ("root://server"), str ("/a")) ∧
    format none (some (str ("root://server"))) (str ("root://server//a")) =
      .ok (str ("root://server//a")) := by
  have h := split_mgm_conflict_amended none (str ("root://server//a"))
    (str ("root://other")) (str ("root")) (str ("server//a")) (str ("server"))
    (str ("a")) (by decide) (by decide)
  exact ⟨h.1 (by decide), h.2.1, h.2.2 (by decide)⟩

-- ______________________________________________________________________
-- CommandRunner (`run_command`, C1)

/-- Python `N_SECONDS_SLEEP`: the fixed backoff between retries. -/
def N_SECONDS_SLEEP : Nat := 10

/-- What `run_command` hands back on success: either the captured output lines
or (per the documented contract for `non_zero_exitcode_ok`) a numeric exit
code. -/
inductive RunOut where
  | out (lines : List Str)
  | code (c : Int)
deriving DecidableEq

/-- The `while True` loop of Python `run_command`.  The subprocess behaviour is
the oracle `attempts : Nat → List Str × Int` giving each attempt's captured
output lines and exit code.  The second component of the result is the list of
`time.sleep` durations performed.  On a non-zero exit with
`non_zero_exitcode_ok=True` the source executes
`logger.info('Command exited with status %s', return_code)` — but `return_code`
is an undefined name (the variable is `returncode`), so the interpreter raises
`NameError` instead of returning the exit code; this is modelled by
`.error .nameErr`.  The fuel argument is `nRetries - iAttempt` and never runs
out when started at `nRetries`. -/
def run_command_loop (attempts : Nat → List Str × Int) (nonZeroOk : Bool)
    (nRetries : Nat) : Nat → Nat → Except Err RunOut × List Nat
  | iAttempt, 0 =>
    let a := attempts iAttempt
    if a.2 = 0 then (.ok (.out a.1), [])
    else if nonZeroOk then (.error .nameErr, [])
    else if iAttempt < nRetries then (.error .fuelOut, [])
    else (.error (.calledProcess a.2), [])
  | iAttempt, fuel + 1 =>
    let a := attempts iAttempt
    if a.2 = 0 then (.ok (.out a.1), [])
    else if nonZeroOk then (.error .nameErr, [])
    else if iAttempt < nRetries then
      let r := run_command_loop attempts nonZeroOk nRetries (iAttempt + 1) fuel
      (r.1, N_SECONDS_SLEEP :: r.2)
    else (.error (.calledProcess a.2), [])

/-- Python `run_command(cmd, dry=None, non_zero_exitcode_ok=False, n_retries=0)`
with `dry=False` (DRYMODE off). -/
def run_command (attempts : Nat → List Str × Int) (nonZeroOk : Bool)
    (nRetries : Nat) : Except Err RunOut × List Nat :=
  run_command_loop attempts nonZeroOk nRetries 0 nRetries

/-- C1: code bug.  With `non_zero_exitcode_ok=True` and a non-zero exit,
`run_command` does not return the numeric exit code: line 88 of the source
reads the undefined name `return_code` and the call dies with `NameError`
(first conjunct, the failing input).  The retry half of the claim does hold:
with retries remaining the call sleeps the fixed backoff and reruns the
command (second conjunct), and fails with `CalledProcessError` once retries
are exhausted (third conjunct). -/
theorem run_command_nonzero_ok_bug :
    run_command (fun _ => ([], 1)) true 0 = (.error .nameErr, []) ∧
    run_command (fun i => ([], if i < 2 then 1 else 0)) false 5 =
      (.ok (.out []), [N_SECONDS_SLEEP, N_SECONDS_SLEEP]) ∧
    run_command (fun _ => ([], 3)) false 2 =
      (.error (.calledProcess 3), [N_SECONDS_SLEEP, N_SECONDS_SLEEP]) := by
  refine ⟨rfl, ?_, ?_⟩ <;> rfl

-- ______________________________________________________________________
-- Backend stat (`_stat_xrootd` / `_stat_gfal`, C2)

/-- Python `str.isspace` characters used by `str.strip` (the common ones). -/
def isSpaceC (c : Char) : Bool :=
  (c == ' ') || (c == '\t') || (c == '\n') || (c == '\r')

/-- Python `s.strip()`. -/
def strip (s : Str) : Str :=
  ((s.dropWhile isSpaceC).reverse.dropWhile isSpaceC).reverse

/-- Python `sub in s` for a substring. -/
def containsSub (sub s : Str) : Bool := (splitOnce sub s).isSome

/-- Python `s.split()` (split on whitespace, dropping empty fields). -/
def splitWordsAux : Str → Str → List Str
  | [], acc => if acc = [] then [] else [acc.reverse]
  | c :: rest, acc =>
    if isSpaceC c then
      if acc = [] then splitWordsAux rest [] else acc.reverse :: splitWordsAux rest []
    else splitWordsAux rest (c :: acc)

def splitWords (s : Str) : List Str := splitWordsAux s []

/-- Python `int(s)` on a decimal string; `none` models the `ValueError`. -/
def parseNatAux : Str → Nat → Option Nat
  | [], acc => some acc
  | c :: rest, acc =>
    if c.isDigit then parseNatAux rest (acc * 10 + (c.toNat - 48)) else none

def parseNat? : Str → Option Nat
  | [] => none
  | s => parseNatAux s 0

/-- The Python `Inode` container: path, modification time (kept as the raw
timestamp string), directory flag and size in bytes. -/
structure InodeV where
  path : Str
  modtime : Str
  isdir : Bool
  size : Nat
deriving DecidableEq

/-- One step of `_stat_xrootd`'s output-parsing loop over `(size, modtime,
isdir)` accumulators (lines `Size:`, `MTime:`, `Flags:`).  A failing
`int(...)` or missing field leaves the accumulator `none`; the source raises
for those, which the caller maps to an error. -/
def statFoldXrd (acc : Option Nat × Option Str × Option Bool) (l : Str) :
    Option Nat × Option Str × Option Bool :=
  let l := strip l
  if isPre (str ("Size:")) l then
    match (splitWords l).get? 1 with
    | some w => (parseNat? w, acc.2.1, acc.2.2)
    | none => (none, acc.2.1, acc.2.2)
  else if isPre (str ("MTime:")) l then
    (acc.1, some (strip (List.drop (str ("MTime:")).length l)), acc.2.2)
  else if isPre (str ("Flags:")) l then
    (acc.1, acc.2.1, some (containsSub (str ("IsDir")) l))
  else acc

/-- Python `_stat_xrootd(path, not_exist_ok=False)`.  The subprocess world
`world` maps an argv to its per-attempt behaviour.  Faithful to the source,
the command's result flows through the buggy `run_command`; the
`isinstance(output, int)` branch (exit code 54 means "no such path") is
modelled but is unreachable because `run_command` raises `NameError` first. -/
def stat_xrootd (dflt : Option Str) (world : List Str → Nat → List Str × Int)
    (path : Str) (notExistOk : Bool) : Except Err (Option InodeV) :=
  match split_mgm dflt none path with
  | .error e => .error e
  | .ok (mgm, lfn) =>
    let cmd := [str ("xrdfs"), mgm, str ("stat"), lfn]
    match (run_command (world cmd) notExistOk 0).1 with
    | .error e => .error e
    | .ok (.code c) =>
      if notExistOk ∧ c = 54 then .ok none else .error .runtimeErr
    | .ok (.out output) =>
      match output.foldl statFoldXrd (none, none, none) with
      | (some size, some modtime, some isdir) =>
        .ok (some ⟨lfn, modtime, isdir, size⟩)
      | _ => .error .runtimeErr

/-- One step of `_stat_gfal`'s output-parsing loop (lines `Size:` carrying the
directory marker and `Modify:` with optional microseconds stripped). -/
def statFoldGfal (acc : Option Nat × Option Str × Option Bool) (l : Str) :
    Option Nat × Option Str × Option Bool :=
  let l := strip l
  if l.length = 0 then acc
  else if isPre (str ("Size:")) l then
    let isdir := containsSub (str ("directory")) l
    let sz :=
      match (splitWords (strip (List.drop (str ("Size:")).length l))).get? 0 with
      | some w => parseNat? w
      | none => none
    (sz, acc.2.1, some isdir)
  else if isPre (str ("Modify:")) l then
    let ts := strip (List.drop (str ("Modify:")).length l)
    let ts :=
      match splitOnce (['.']) ts with
      | some (pre, _) => pre
      | none => ts
    (acc.1, some ts, acc.2.2)
  else acc

/-- Python `_stat_gfal(path, not_exist_ok=False)`.  In the branch raising for
an unexpected exit code the source formats `' '.join(cmd)` but no variable
`cmd` exists in that function, so that branch too would die with `NameError`
(`.error .nameErr`); like the exit-code branch of `_stat_xrootd` it is
unreachable because `run_command` already raised. -/
def stat_gfal (world : List Str → Nat → List Str × Int)
    (path : Str) (notExistOk : Bool) : Except Err (Option InodeV) :=
  let cmd := [str ("gfal-stat"), path]
  match (run_command (world cmd) notExistOk 0).1 with
  | .error e => .error e
  | .ok (.code c) =>
    if notExistOk ∧ c = 2 then .ok none else .error .nameErr
  | .ok (.out output) =>
    match output.foldl statFoldGfal (none, none, none) with
    | (some size, some modtime, some isdir) =>
      .ok (some ⟨path, modtime, isdir, size⟩)
    | _ => .error .runtimeErr

/-- C2: code bug.  With strict mode off (`not_exist_ok=True`) and the backend
tool exiting with its "no such path" code (54 for xrootd, 2 for gfal), `stat`
does not return `None`: the `NameError` from `run_command`'s
`non_zero_exitcode_ok` branch propagates instead (first two conjuncts, the
failing inputs).  The strict half of the claim holds: with
`not_exist_ok=False` any non-zero exit is an error (`CalledProcessError`,
last two conjuncts). -/
theorem stat_not_exist_ok_bug :
    stat_xrootd none (fun _ _ => ([], 54)) (str ("root://server//no/such")) true =
      .error .nameErr ∧
    stat_gfal (fun _ _ => ([], 2)) (str ("gsiftp://server//no/such")) true =
      .error .nameErr ∧
    stat_xrootd none (fun _ _ => ([], 54)) (str ("root://server//no/such")) false =
      .error (.calledProcess 54) ∧
    stat_gfal (fun _ _ => ([], 2)) (str ("gsiftp://server//no/such")) false =
      .error (.calledProcess 2) := by
  refine ⟨?_, ?_, ?_, ?_⟩ <;> rfl

-- ______________________________________________________________________
-- MetadataCache (`read_cache` / `write_cache` and the cached wrappers, C3)

/-- A dynamically typed Python value as stored in / returned by the cached
query wrappers: `None`, a bool, a small int, an `Inode`, or a list of paths. -/
inductive PyVal where
  | vNone
  | vBool (b : Bool)
  | vNat (n : Nat)
  | vInode (i : InodeV)
  | vList (l : List Str)
deriving DecidableEq

/-- Python truthiness of the values above (`if not val:`). -/
def pyTruthy : PyVal → Bool
  | .vNone => false
  | .vBool b => b
  | .vNat n => decide (n ≠ 0)
  | .vInode _ => true
  | .vList l => decide (l ≠ [])

/-- The cache state: a total map from (subcache name, key) to the stored value,
with `vNone` for absent keys — exactly the behaviour of Python's
`cache.get(key, None)`, which cannot distinguish a stored `None` from a
missing key. -/
def Cache : Type := Str × Str → PyVal

def emptyCache : Cache := fun _ => .vNone

/-- Python `read_cache(subcache_name, key)`: `None` when caching is disabled
or the key is absent. -/
def read_cache (useCache : Bool) (c : Cache) (ns key : Str) : PyVal :=
  if useCache then c (ns, key) else .vNone

/-- Python `write_cache(subcache_name, key, value)`: a no-op when caching is
disabled. -/
def write_cache (useCache : Bool) (c : Cache) (ns key : Str) (v : PyVal) : Cache :=
  if useCache then (fun k => if k = (ns, key) then v else c k) else c

def nsStat : Str := str ("seutils-cache.stat")
def nsExists : Str := str ("seutils-cache.exists")
def nsIsdir : Str := str ("seutils-cache.isdir")
def nsIsfile : Str := str ("seutils-cache.isfile")
def nsIsFoD : Str := str ("seutils-cache.isfileordir")
def nsListdir : Str := str ("seutils-cache.listdir")

/-- The shared shape of the cached read-query wrappers `stat`, `exists`,
`isdir`, `isfile` and `is_file_or_dir`: read the cache under the stripped
path, on `None` invoke the dispatched backend `inner` and write the result
back.  The third component counts backend (subprocess-level) invocations made
by this call. -/
def cachedQuery (useCache : Bool) (ns : Str) (inner : Str → Except Err PyVal)
    (path : Str) (c : Cache) : Except Err PyVal × Cache × Nat :=
  let key := strip path
  let val := read_cache useCache c ns key
  if val = .vNone then
    match inner path with
    | .error e => (.error e, c, 1)
    | .ok v => (.ok v, write_cache useCache c ns key v, 1)
  else (.ok val, c, 0)

/-- Python `stat(path, not_exist_ok)` (cache layer; the dispatched
`_stat_xrootd`/`_stat_gfal` call is the parameter `inner`). -/
def statQ (useCache : Bool) (inner : Str → Except Err PyVal) (path : Str)
    (c : Cache) : Except Err PyVal × Cache × Nat :=
  cachedQuery useCache nsStat inner path c

/-- Python `exists(path)` (cache layer). -/
def existsQ (useCache : Bool) (inner : Str → Except Err PyVal) (path : Str)
    (c : Cache) : Except Err PyVal × Cache × Nat :=
  cachedQuery useCache nsExists inner path c

/-- Python `isdir(directory)` (cache layer). -/
def isdirQ (useCache : Bool) (inner : Str → Except Err PyVal) (path : Str)
    (c : Cache) : Except Err PyVal × Cache × Nat :=
  cachedQuery useCache nsIsdir inner path c

/-- Python `isfile(path)` (cache layer). -/
def isfileQ (useCache : Bool) (inner : Str → Except Err PyVal) (path : Str)
    (c : Cache) : Except Err PyVal × Cache × Nat :=
  cachedQuery useCache nsIsfile inner path c

/-- Python `is_file_or_dir(path)` (cache layer). -/
def isFoDQ (useCache : Bool) (inner : Str → Except Err PyVal) (path : Str)
    (c : Cache) : Except Err PyVal × Cache × Nat :=
  cachedQuery useCache nsIsFoD inner path c

/-- The cache key of `listdir`: `directory.strip() + '___stat{}'.format(stat)`. -/
def listdirKey (directory : Str) (statF : Bool) : Str :=
  strip directory ++ str ("___stat") ++
    (if statF then str ("True") else str ("False"))

/-- Python `listdir(directory, stat=False, assume_directory=False)` (cache
layer).  Note the guard is `if not val:` — truthiness, not an `is None`
check — so a cached empty listing falls through to the backend again.
`innerIsdir` is the backend behind the (itself cached) `isdir` check,
`innerList` the backend behind `_listdir_xrootd`/`_listdir_gfal`. -/
def listdirQ (useCache : Bool) (innerIsdir innerList : Str → Except Err PyVal)
    (directory : Str) (statF : Bool) (assumeDir : Bool) (c : Cache) :
    Except Err PyVal × Cache × Nat :=
  let key := listdirKey directory statF
  let val := read_cache useCache c nsListdir key
  if pyTruthy val = false then
    if assumeDir then
      match innerList directory with
      | .error e => (.error e, c, 1)
      | .ok lv => (.ok lv, write_cache useCache c nsListdir key lv, 1)
    else
      match isdirQ useCache innerIsdir directory c with
      | (.error e, c2, n) => (.error e, c2, n)
      | (.ok dv, c2, n) =>
        if pyTruthy dv = false then (.error .notADirectory, c2, n)
        else
          match innerList directory with
          | .error e => (.error e, c2, n + 1)
          | .ok lv => (.ok lv, write_cache useCache c2 nsListdir key lv, n + 1)
  else (.ok val, c, 0)

theorem cachedQuery_hit {ns : Str} {inner : Str → Except Err PyVal} {path : Str}
    {c : Cache} {v : PyVal} (hc : c (ns, strip path) = v) (hv : v ≠ .vNone) :
    cachedQuery true ns inner path c = (.ok v, c, 0) := by
  simp [cachedQuery, read_cache, hc, hv]

theorem cachedQuery_cacheVal {ns : Str} {inner : Str → Except Err PyVal}
    {path : Str} {c0 c1 : Cache} {v1 : PyVal} {n1 : Nat}
    (h : cachedQuery true ns inner path c0 = (.ok v1, c1, n1)) :
    v1 ≠ .vNone → c1 (ns, strip path) = v1 := by
  intro hv
  by_cases h0 : c0 (ns, strip path) = .vNone
  · cases hin : inner path with
    | error e =>
      exfalso
      simp [cachedQuery, read_cache, h0, hin] at h
    | ok v =>
      have hv1 : v = v1 ∧ write_cache true c0 ns (strip path) v = c1 ∧ 1 = n1 := by
        simpa [cachedQuery, read_cache, h0, hin] using h
      rw [← hv1.2.1, ← hv1.1, write_cache]
      simp
  · have hval : cachedQuery true ns inner path c0 =
        (.ok (c0 (ns, strip path)), c0, 0) := by
      simp [cachedQuery, read_cache, h0]
    rw [hval] at h
    have hc : c0 = c1 := congrArg (fun t => t.2.1) h
    have hvv : c0 (ns, strip path) = v1 := by
      have := congrArg (fun t => t.1) h
      simpa using this
    rw [← hc, hvv]

/-- Second identical call after a successful cached query: same value; no
backend invocation provided the first result was not `None`. -/
theorem cachedQuery_second {ns : Str} {inner : Str → Except Err PyVal}
    {path : Str} {c0 c1 : Cache} {v1 : PyVal} {n1 : Nat}
    (h : cachedQuery true ns inner path c0 = (.ok v1, c1, n1)) :
    (cachedQuery true ns inner path c1).1 = .ok v1 ∧
    (v1 ≠ .vNone → (cachedQuery true ns inner path c1).2.2 = 0) := by
  by_cases hv : v1 = .vNone
  · subst hv
    refine ⟨?_, fun hne => absurd rfl hne⟩
    -- the cached value is again None, so the (deterministic) backend reruns
    by_cases h0 : c0 (ns, strip path) = .vNone
    · cases hin : inner path with
      | error e =>
        exfalso
        simp [cachedQuery, read_cache, h0, hin] at h
      | ok v =>
        have hv1 : v = .vNone ∧ write_cache true c0 ns (strip path) v = c1 ∧ 1 = n1 := by
          simpa [cachedQuery, read_cache, h0, hin] using h
        obtain ⟨rfl, hc, _⟩ := hv1
        rw [← hc]
        simp [cachedQuery, read_cache, write_cache, hin]
    · have hval : cachedQuery true ns inner path c0 =
          (.ok (c0 (ns, strip path)), c0, 0) := by
        simp [cachedQuery, read_cache, h0]
      rw [hval] at h
      have hvv : c0 (ns, strip path) = .vNone := by
        have := congrArg (fun t => t.1) h
        simpa using this
      exact absurd hvv h0
  · have hc1 := cachedQuery_cacheVal h hv
    rw [cachedQuery_hit hc1 hv]
    exact ⟨rfl, fun _ => rfl⟩

/-- The two cached-query namespaces used by `listdir` are distinct. -/
theorem nsListdir_ne_nsIsdir : nsListdir ≠ nsIsdir := by decide

/-- C3 counterexample: with caching enabled, over an unchanged cache, the
second of two identical `listdir` queries on a directory whose listing is
empty returns the same value but invokes the backend again (one subprocess
call, not zero), because the cached empty list is falsy under the `if not
val:` guard.  This falsifies the claim that every subsequent identical
read-query is served without invoking the backend. -/
theorem cache_listdir_empty_reinvokes :
    (listdirQ true (fun _ => .ok (.vBool true)) (fun _ => .ok (.vList []))
      (str ("/d")) false false emptyCache).1 = .ok (.vList []) ∧
    (listdirQ true (fun _ => .ok (.vBool true)) (fun _ => .ok (.vList []))
      (str ("/d")) false false
      ((listdirQ true (fun _ => .ok (.vBool true)) (fun _ => .ok (.vList []))
        (str ("/d")) false false emptyCache).2.1)).1 = .ok (.vList []) ∧
    (listdirQ true (fun _ => .ok (.vBool true)) (fun _ => .ok (.vList []))
      (str ("/d")) false false
      ((listdirQ true (fun _ => .ok (.vBool true)) (fun _ => .ok (.vList []))
        (str ("/d")) false false emptyCache).2.1)).2.2 = 1 := by
  refine ⟨?_, ?_, ?_⟩ <;> rfl

/-- Second identical `listdir` call after a successful one: identical value;
no backend invocation provided the first listing was non-empty (truthy). -/
theorem listdirQ_second {innerD innerL : Str → Except Err PyVal}
    {directory : Str} {statF assumeDir : Bool} {c0 c1 : Cache} {v1 : PyVal}
    {n1 : Nat}
    (h : listdirQ true innerD innerL directory statF assumeDir c0 =
      (.ok v1, c1, n1)) :
    (listdirQ true innerD innerL directory statF assumeDir c1).1 = .ok v1 ∧
    (pyTruthy v1 = true →
      (listdirQ true innerD innerL directory statF assumeDir c1).2.2 = 0) := by
  by_cases h0 : pyTruthy (c0 (nsListdir, listdirKey directory statF)) = false
  · cases hAD : assumeDir with
    | true =>
      subst hAD
      cases hin : innerL directory with
      | error e =>
        exfalso
        simp [listdirQ, read_cache, h0, hin] at h
      | ok lv =>
        have hv1 : lv = v1 ∧
            write_cache true c0 nsListdir (listdirKey directory statF) lv = c1 ∧
            1 = n1 := by
          simpa [listdirQ, read_cache, h0, hin] using h
        obtain ⟨rfl, hc, _⟩ := hv1
        have hread : c1 (nsListdir, listdirKey directory statF) = lv := by
          rw [← hc, write_cache]
          simp
        by_cases hlv : pyTruthy lv = false
        · refine ⟨?_, fun ht => absurd ht (by simp [hlv])⟩
          simp [listdirQ, read_cache, hread, hlv, hin]
        · have hlv' : pyTruthy lv = true := by
            cases hb : pyTruthy lv
            · exact absurd hb hlv
            · rfl
          constructor
          · simp [listdirQ, read_cache, hread, hlv']
          · intro _
            simp [listdirQ, read_cache, hread, hlv']
    | false =>
      subst hAD
      rcases hisd : isdirQ true innerD directory c0 with ⟨r, c2, n⟩
      cases r with
      | error e =>
        exfalso
        simp [listdirQ, read_cache, h0, hisd] at h
      | ok dv =>
        by_cases hdv : pyTruthy dv = false
        · exfalso
          simp [listdirQ, read_cache, h0, hisd, hdv] at h
        · have hdv' : pyTruthy dv = true := by
            cases hb : pyTruthy dv
            · exact absurd hb hdv
            · rfl
          cases hin : innerL directory with
          | error e =>
            exfalso
            simp [listdirQ, read_cache, h0, hisd, hdv', hin] at h
          | ok lv =>
            have hv1 : lv = v1 ∧
                write_cache true c2 nsListdir (listdirKey directory statF) lv = c1 ∧
                n + 1 = n1 := by
              simpa [listdirQ, read_cache, h0, hisd, hdv', hin] using h
            obtain ⟨rfl, hc, _⟩ := hv1
            have hread : c1 (nsListdir, listdirKey directory statF) = lv := by
              rw [← hc, write_cache]
              simp
            have hdvNone : dv ≠ .vNone := by
              intro hx
              subst hx
              simp [pyTruthy] at hdv'
            have hisd' : cachedQuery true nsIsdir innerD directory c0 =
                (.ok dv, c2, n) := hisd
            have hc2 : c2 (nsIsdir, strip directory) = dv :=
              cachedQuery_cacheVal hisd' hdvNone
            have hc1isd : c1 (nsIsdir, strip directory) = dv := by
              have hkeys : ¬ ((nsIsdir, strip directory) : Str × Str) =
                  (nsListdir, listdirKey directory statF) := by
                intro hx
                exact nsListdir_ne_nsIsdir (congrArg Prod.fst hx).symm
              rw [← hc]
              simp [write_cache, hkeys, hc2]
            have hisd2 : isdirQ true innerD directory c1 = (.ok dv, c1, 0) :=
              cachedQuery_hit hc1isd hdvNone
            by_cases hlv : pyTruthy lv = false
            · refine ⟨?_, fun ht => absurd ht (by simp [hlv])⟩
              simp [listdirQ, read_cache, hread, hlv, hisd2, hdv', hin]
            · have hlv' : pyTruthy lv = true := by
                cases hb : pyTruthy lv
                · exact absurd hb hlv
                · rfl
              constructor
              · simp [listdirQ, read_cache, hread, hlv']
              · intro _
                simp [listdirQ, read_cache, hread, hlv']
  · have hp : pyTruthy (c0 (nsListdir, listdirKey directory statF)) = true := by
      cases hb : pyTruthy (c0 (nsListdir, listdirKey directory statF))
      · exact absurd hb h0
      · rfl
    have hval : listdirQ true innerD innerL directory statF assumeDir c0 =
        (.ok (c0 (nsListdir, listdirKey directory statF)), c0, 0) := by
      simp [listdirQ, read_cache, hp]
    rw [hval] at h
    have hv : c0 (nsListdir, listdirKey directory statF) = v1 := by
      have := congrArg (fun t => t.1) h
      simpa using this
    have hcc : c0 = c1 := congrArg (fun t => t.2.1) h
    rw [← hcc, hval, hv]
    exact ⟨rfl, fun _ => rfl⟩

/-- C3 (amended): with caching globally enabled and a deterministic backend,
for each read-query wrapper (`stat`, `exists`, `isdir`, `isfile`,
`is_file_or_dir`, `listdir` on the same normalized address and, for `listdir`,
the same stat flag), a second identical call over the unchanged cache returns
a value identical to the first call's result; the backend is not invoked again
provided the first result was not `None` (for the `is None`-guarded wrappers)
and, for `listdir`, was a non-empty (truthy) listing.  A cached `None` (stat
of a missing path in tolerant mode) or an empty listing falls through the
guard and re-invokes the backend, see the counterexample. -/
theorem cache_transparency_amended
    (innerS innerE innerD innerF innerC innerDi innerL : Str → Except Err PyVal)
    (p d : Str) (statF assumeDir : Bool) (c0 : Cache) :
    (∀ v1 c1 n1, statQ true innerS p c0 = (.ok v1, c1, n1) →
      (statQ true innerS p c1).1 = .ok v1 ∧
      (v1 ≠ .vNone → (statQ true innerS p c1).2.2 = 0)) ∧
    (∀ v1 c1 n1, existsQ true innerE p c0 = (.ok v1, c1, n1) →
      (existsQ true innerE p c1).1 = .ok v1 ∧
      (v1 ≠ .vNone → (existsQ true innerE p c1).2.2 = 0)) ∧
    (∀ v1 c1 n1, isdirQ true innerD p c0 = (.ok v1, c1, n1) →
      (isdirQ true innerD p c1).1 = .ok v1 ∧
      (v1 ≠ .vNone → (isdirQ true innerD p c1).2.2 = 0)) ∧
    (∀ v1 c1 n1, isfileQ true innerF p c0 = (.ok v1, c1, n1) →
      (isfileQ true innerF p c1).1 = .ok v1 ∧
      (v1 ≠ .vNone → (isfileQ true innerF p c1).2.2 = 0)) ∧
    (∀ v1 c1 n1, isFoDQ true innerC p c0 = (.ok v1, c1, n1) →
      (isFoDQ true innerC p c1).1 = .ok v1 ∧
      (v1 ≠ .vNone → (isFoDQ true innerC p c1).2.2 = 0)) ∧
    (∀ v1 c1 n1,
      listdirQ true innerDi innerL d statF assumeDir c0 = (.ok v1, c1, n1) →
      (listdirQ true innerDi innerL d statF assumeDir c1).1 = .ok v1 ∧
      (pyTruthy v1 = true →
        (listdirQ true innerDi innerL d statF assumeDir c1).2.2 = 0)) :=
  ⟨fun _ _ _ h => cachedQuery_second h,
   fun _ _ _ h => cachedQuery_second h,
   fun _ _ _ h => cachedQuery_second h,
   fun _ _ _ h => cachedQuery_second h,
   fun _ _ _ h => cachedQuery_second h,
   fun _ _ _ h => listdirQ_second h⟩

/-- Witness for C3 (amended): a concrete second `exists` query is a pure cache
hit, and a concrete second non-empty `listdir` query is too. -/
theorem cache_transparency_amended_witness :
    (existsQ true (fun _ => .ok (.vBool false)) (str ("/w"))
      ((existsQ true (fun _ => .ok (.vBool false)) (str ("/w"))
        emptyCache).2.1)).1 = .ok (.vBool false) ∧
    (existsQ true (fun _ => .ok (.vBool false)) (str ("/w"))
      ((existsQ true (fun _ => .ok (.vBool false)) (str ("/w"))
        emptyCache).2.1)).2.2 = 0 ∧
    (listdirQ true (fun _ => .ok (.vBool true))
      (fun _ => .ok (.vList [str ("/w/x")])) (str ("/w")) false false
      ((listdirQ true (fun _ => .ok (.vBool true))
        (fun _ => .ok (.vList [str ("/w/x")])) (str ("/w")) false false
        emptyCache).2.1)).2.2 = 0 := by
  have h := cache_transparency_amended
    (fun _ => .ok (.vBool false)) (fun _ => .ok (.vBool false))
    (fun _ => .ok (.vBool true)) (fun _ => .ok (.vBool false))
    (fun _ => .ok (.vBool false)) (fun _ => .ok (.vBool true))
    (fun _ => .ok (.vList [str ("/w/x")]))
    (str ("/w")) (str ("/w")) false false emptyCache
  have he := h.2.1 (.vBool false)
    ((existsQ true (fun _ => .ok (.vBool false)) (str ("/w")) emptyCache).2.1)
    ((existsQ true (fun _ => .ok (.vBool false)) (str ("/w")) emptyCache).2.2)
    rfl
  have hl := h.2.2.2.2.2 (.vList [str ("/w/x")])
    ((listdirQ true (fun _ => .ok (.vBool true))
      (fun _ => .ok (.vList [str ("/w/x")])) (str ("/w")) false false
      emptyCache).2.1)
    ((listdirQ true (fun _ => .ok (.vBool true))
      (fun _ => .ok (.vList [str ("/w/x")])) (str ("/w")) false false
      emptyCache).2.2)
    rfl
  exact ⟨he.1, he.2 (by decide), hl.2 (by decide)⟩

-- ______________________________________________________________________
-- Exit-code classification (`_is_file_or_dir_xrootd` / `_isfile_xrootd`, C9)

/-- Python `_is_file_or_dir_xrootd(path)`.  `getExit mgm lfn` is the exit code
of the spawned `xrdfs mgm stat -q IsDir lfn` (`get_exitcode` never raises).
0 means directory (1), 54 means absent (0), 55 means exists-but-not-a-directory
i.e. file (2), anything else raises `RuntimeError`. -/
def is_file_or_dir_xrootd (dflt : Option Str) (getExit : Str → Str → Nat)
    (path : Str) : Except Err Nat :=
  match split_mgm dflt none path with
  | .error e => .error e
  | .ok (mgm, lfn) =>
    let status := getExit mgm lfn
    if status = 0 then .ok 1
    else if status = 54 then .ok 0
    else if status = 55 then .ok 2
    else .error .runtimeErr

/-- Python `_isfile_xrootd(path)`: true exactly when the directory-predicate
query exits with code 55 ("path exists, but is not a directory"). -/
def isfile_xrootd (dflt : Option Str) (getExit : Str → Str → Nat)
    (path : Str) : Except Err Bool :=
  match split_mgm dflt none path with
  | .error e => .error e
  | .ok (mgm, lfn) => .ok (decide (getExit mgm lfn = 55))

/-- C9: for the xrootd-family backend, the directory-predicate query's exit
code is mapped as: 0 ⟹ directory (1), 54 ⟹ absent (0), 55 ⟹ file (2), any
other code ⟹ a raised command failure; and `isfile` is true exactly on
code 55. -/
theorem xrootd_exit_classification (dflt : Option Str)
    (getExit : Str → Str → Nat) (path mgm lfn : Str)
    (h : split_mgm dflt none path = .ok (mgm, lfn)) :
    (getExit mgm lfn = 0 →
      is_file_or_dir_xrootd dflt getExit path = .ok 1) ∧
    (getExit mgm lfn = 54 →
      is_file_or_dir_xrootd dflt getExit path = .ok 0) ∧
    (getExit mgm lfn = 55 →
      is_file_or_dir_xrootd dflt getExit path = .ok 2) ∧
    (getExit mgm lfn ≠ 0 → getExit mgm lfn ≠ 54 → getExit mgm lfn ≠ 55 →
      is_file_or_dir_xrootd dflt getExit path = .error .runtimeErr) ∧
    isfile_xrootd dflt getExit path = .ok (decide (getExit mgm lfn = 55)) := by
  unfold is_file_or_dir_xrootd isfile_xrootd
  rw [h]
  refine ⟨fun h0 => by simp [h0], fun h54 => by simp [h54],
    fun h55 => by simp [h55], fun h0 h54 h55 => by simp [h0, h54, h55], rfl⟩

/-- Witness for C9 at a concrete path and exit code 55 (a file). -/
theorem xrootd_exit_classification_witness :
    is_file_or_dir_xrootd none (fun _ _ => 55) (str ("root://server//f")) =
      .ok 2 ∧
    isfile_xrootd none (fun _ _ => 55) (str ("root://server//f")) = .ok true := by
  have h := xrootd_exit_classification none (fun _ _ => 55)
    (str ("root://server//f")) (str ("root://server")) (str ("/f")) (by rfl)
  exact ⟨h.2.2.1 rfl, h.2.2.2.2⟩

-- ______________________________________________________________________
-- Filesystem model and the walk algorithm (C5, C7)

/-- A model of a remote filesystem subtree: a path is either a file or a
directory with named children (basename, subtree), in listing order. -/
inductive FTree where
  | file : FTree
  | dir (children : List (Str × FTree)) : FTree

mutual
/-- Number of directory nodes in a subtree — exactly the number of listing
requests a complete walk needs (each `_walk` call lists one directory). -/
def ndirsT : FTree → Nat
  | .file => 0
  | .dir cs => 1 + ndirsF cs
def ndirsF : List (Str × FTree) → Nat
  | [] => 0
  | c :: cs => ndirsT c.2 + ndirsF cs
end

/-- Python `os.path.basename`: the part after the last `'/'`. -/
def basename (s : Str) : Str :=
  (s.reverse.takeWhile (fun c => ¬ c = '/')).reverse

/-- Lexicographic comparison of strings (Python `<=` on `str`). -/
def leStr : Str → Str → Bool
  | [], _ => true
  | _ :: _, [] => false
  | a :: as, b :: bs => if a = b then leStr as bs else decide (a < b)

/-- Stable insertion, modelling Python's stable `list.sort(key=...)`. -/
def insortBy {α : Type} (le : α → α → Bool) : α → List α → List α
  | x, [] => [x]
  | x, y :: ys => if le x y then x :: y :: ys else y :: insortBy le x ys

def sortBy {α : Type} (le : α → α → Bool) : List α → List α
  | [] => []
  | x :: xs => insortBy le x (sortBy le xs)

theorem insortBy_perm {α : Type} (le : α → α → Bool) (x : α) (l : List α) :
    List.Perm (insortBy le x l) (x :: l) := by
  induction l with
  | nil => simp [insortBy]
  | cons y ys ih =>
    simp only [insortBy]
    split
    · exact List.Perm.refl _
    · exact (List.Perm.cons y ih).trans (List.Perm.swap x y ys)

theorem sortBy_perm {α : Type} (le : α → α → Bool) (l : List α) :
    List.Perm (sortBy le l) l := by
  induction l with
  | nil => exact List.Perm.refl _
  | cons x xs ih =>
    exact (insortBy_perm le x (sortBy le xs)).trans (List.Perm.cons x ih)

/-- Python `MAX_RECURSION_DEPTH` (the walk budget's default ceiling). -/
def MAX_RECURSION_DEPTH : Nat := 20

/-- Full path of a child entry, as produced by the backend listing plus
`format` (parent path, `'/'`, basename). -/
def joinPath (p name : Str) : Str := p ++ '/' :: name

def entryIsDir : FTree → Bool
  | .file => false
  | .dir _ => true

/-- A triple yielded by `walk` with `stat=False`: path, directory paths,
file paths. -/
abbrev WTriple := Str × List Str × List Str

/-- Sort key used by `_walk`: ascending basename of the entry's path. -/
def leBase {α : Type} (x y : Str × α) : Bool := leStr (basename x.1) (basename y.1)

/-- The directory entries of a listed directory: full path plus that
subdirectory's children, in listing order. -/
def dirEntries (path : Str) : List (Str × FTree) → List (Str × List (Str × FTree))
  | [] => []
  | c :: cs =>
    match c.2 with
    | FTree.dir cs2 => (joinPath path c.1, cs2) :: dirEntries path cs
    | FTree.file => dirEntries path cs

/-- The file entries (full paths) of a listed directory, in listing order. -/
def fileEntries (path : Str) (cs : List (Str × FTree)) : List Str :=
  (cs.filter (fun c => entryIsDir c.2 = false)).map (fun c => joinPath path c.1)

/-- Python `_walk(path, stat=False, counter)`, processing a worklist of
directory entries depth-first.  For each entry it performs the budget check
(`counter.i >= MAX_RECURSION_DEPTH` raises), lists the directory (one remote
listing request, counted by incrementing the counter), partitions and sorts
the entries by basename, yields the `(path, dirnames, filenames)` triple, and
descends into the sorted subdirectories before the remaining worklist.  The
fuel argument only bounds the recursion depth of the embedding; it never runs
out when the caller supplies `MAX_RECURSION_DEPTH + 1`, because each level of
descent increments the counter. -/
def walkList : Nat → List (Str × List (Str × FTree)) → Nat →
    Except Err (List WTriple) × Nat
  | _, [], counter => (.ok [], counter)
  | 0, _ :: _, counter =>
    if MAX_RECURSION_DEPTH ≤ counter then (.error .maxRecursion, counter)
    else (.error .fuelOut, counter)
  | fuel + 1, d :: ds, counter =>
    if MAX_RECURSION_DEPTH ≤ counter then (.error .maxRecursion, counter)
    else
      let files := sortBy (fun a b => leStr (basename a) (basename b))
        (fileEntries d.1 d.2)
      let dirs := sortBy leBase (dirEntries d.1 d.2)
      let triple : WTriple := (d.1, dirs.map (fun e => e.1), files)
      match walkList fuel dirs (counter + 1) with
      | (.error e, cF) => (.error e, cF)
      | (.ok ys, c2) =>
        match walkList (fuel + 1) ds c2 with
        | (.error e, cF) => (.error e, cF)
        | (.ok zs, c3) => (.ok (triple :: ys ++ zs), c3)
termination_by fuel ds _ => (fuel, ds.length)

/-- Python `walk(path, stat=False)`: checks that the starting path is a
directory (`is_file_or_dir(path) == 1`), then drives `_walk` with a fresh
counter.  Returns the fully-consumed generator's triples (or the raised
error) together with the number of listing requests issued. -/
def walk (t : FTree) (rootPath : Str) : Except Err (List WTriple) × Nat :=
  match t with
  | .file => (.error .notADirectory, 0)
  | .dir cs => walkList (MAX_RECURSION_DEPTH + 1) [(rootPath, cs)] 0

/-- Listing requests needed for a worklist of directory entries. -/
def ndirsE (ds : List (Str × List (Str × FTree))) : Nat :=
  (ds.map (fun e => 1 + ndirsF e.2)).sum

theorem ndirsE_cons (e : Str × List (Str × FTree))
    (ds : List (Str × List (Str × FTree))) :
    ndirsE (e :: ds) = (1 + ndirsF e.2) + ndirsE ds := by
  simp [ndirsE]

theorem ndirsE_dirEntries (p : Str) (cs : List (Str × FTree)) :
    ndirsE (dirEntries p cs) = ndirsF cs := by
  induction cs with
  | nil => rfl
  | cons c cs ih =>
    cases hc : c.2 with
    | file => simp [dirEntries, hc, ndirsF, ndirsT, ih]
    | dir cs2 => simp [dirEntries, hc, ndirsF, ndirsT, ndirsE_cons, ih]

theorem ndirsE_sortBy (ds : List (Str × List (Str × FTree))) :
    ndirsE (sortBy leBase ds) = ndirsE ds :=
  List.Perm.sum_eq (List.Perm.map _ (sortBy_perm leBase ds))

theorem walkList_nil (fuel counter : Nat) :
    walkList fuel [] counter = (.ok [], counter) := by
  cases fuel <;> simp [walkList]

theorem walkList_zero_max {d : Str × List (Str × FTree)}
    {ds : List (Str × List (Str × FTree))} {counter : Nat}
    (h : MAX_RECURSION_DEPTH ≤ counter) :
    walkList 0 (d :: ds) counter = (.error .maxRecursion, counter) := by
  simp [walkList, h]

theorem walkList_zero_fuel {d : Str × List (Str × FTree)}
    {ds : List (Str × List (Str × FTree))} {counter : Nat}
    (h : ¬ MAX_RECURSION_DEPTH ≤ counter) :
    walkList 0 (d :: ds) counter = (.error .fuelOut, counter) := by
  simp [walkList, h]

theorem walkList_step_max {fuel : Nat} {d : Str × List (Str × FTree)}
    {ds : List (Str × List (Str × FTree))} {counter : Nat}
    (h20 : MAX_RECURSION_DEPTH ≤ counter) :
    walkList (fuel + 1) (d :: ds) counter = (.error .maxRecursion, counter) := by
  simp [walkList, h20]

theorem walkList_step_err {fuel : Nat} {d : Str × List (Str × FTree)}
    {ds : List (Str × List (Str × FTree))} {counter : Nat} {e : Err} {cF : Nat}
    (h20 : ¬ MAX_RECURSION_DEPTH ≤ counter)
    (h1 : walkList fuel (sortBy leBase (dirEntries d.1 d.2)) (counter + 1) =
      (.error e, cF)) :
    walkList (fuel + 1) (d :: ds) counter = (.error e, cF) := by
  simp [walkList, h20, h1]

theorem walkList_step_ok_err {fuel : Nat} {d : Str × List (Str × FTree)}
    {ds : List (Str × List (Str × FTree))} {counter : Nat}
    {ys : List WTriple} {c2 : Nat} {e : Err} {cF : Nat}
    (h20 : ¬ MAX_RECURSION_DEPTH ≤ counter)
    (h1 : walkList fuel (sortBy leBase (dirEntries d.1 d.2)) (counter + 1) =
      (.ok ys, c2))
    (h2 : walkList (fuel + 1) ds c2 = (.error e, cF)) :
    walkList (fuel + 1) (d :: ds) counter = (.error e, cF) := by
  simp [walkList, h20, h1, h2]

theorem walkList_step_ok_ok {fuel : Nat} {d : Str × List (Str × FTree)}
    {ds : List (Str × List (Str × FTree))} {counter : Nat}
    {ys : List WTriple} {c2 : Nat} {zs : List WTriple} {c3 : Nat}
    (h20 : ¬ MAX_RECURSION_DEPTH ≤ counter)
    (h1 : walkList fuel (sortBy leBase (dirEntries d.1 d.2)) (counter + 1) =
      (.ok ys, c2))
    (h2 : walkList (fuel + 1) ds c2 = (.ok zs, c3)) :
    walkList (fuel + 1) (d :: ds) counter =
      (.ok ((d.1, (sortBy leBase (dirEntries d.1 d.2)).map (fun e => e.1),
        sortBy (fun a b => leStr (basename a) (basename b)) (fileEntries d.1 d.2))
        :: ys ++ zs), c3) := by
  simp [walkList, h20, h1, h2]

/-- The bundled budget specification of `_walk`'s worklist recursion:
monotone counter, counter bounded by the budget, and — with enough fuel —
success with exactly `counter + ndirsE ds` listings when that fits the budget,
a `maxRecursion` error when it does not. -/
theorem walkList_spec (fuel : Nat) :
    ∀ ds counter,
      counter ≤ (walkList fuel ds counter).2 ∧
      (counter ≤ MAX_RECURSION_DEPTH →
        (walkList fuel ds counter).2 ≤ MAX_RECURSION_DEPTH) ∧
      (counter ≤ MAX_RECURSION_DEPTH →
        MAX_RECURSION_DEPTH + 1 ≤ counter + fuel →
        (counter + ndirsE ds ≤ MAX_RECURSION_DEPTH →
          ∃ ys, walkList fuel ds counter = (.ok ys, counter + ndirsE ds)) ∧
        (MAX_RECURSION_DEPTH < counter + ndirsE ds →
          (walkList fuel ds counter).1 = .error .maxRecursion)) := by
  induction fuel with
  | zero =>
    intro ds counter
    cases ds with
    | nil =>
      rw [walkList_nil]
      refine ⟨le_refl _, fun h => h,
        fun hc hf => ⟨fun hle => ⟨[], by simp [ndirsE]⟩, fun hgt => ?_⟩⟩
      exfalso
      simp [ndirsE] at hgt
      omega
    | cons d ds =>
      by_cases h20 : MAX_RECURSION_DEPTH ≤ counter
      · rw [walkList_zero_max h20]
        refine ⟨le_refl _, fun h => h, fun hc hf => ?_⟩
        exfalso
        omega
      · rw [walkList_zero_fuel h20]
        refine ⟨le_refl _, fun h => h, fun hc hf => ?_⟩
        exfalso
        omega
  | succ fuel ihf =>
    intro ds0
    induction ds0 with
    | nil =>
      intro counter
      rw [walkList_nil]
      refine ⟨le_refl _, fun h => h,
        fun hc hf => ⟨fun hle => ⟨[], by simp [ndirsE]⟩, fun hgt => ?_⟩⟩
      exfalso
      simp [ndirsE] at hgt
      omega
    | cons d ds ihd =>
      intro counter
      by_cases h20 : MAX_RECURSION_DEPTH ≤ counter
      · rw [walkList_step_max h20]
        refine ⟨le_refl _, fun h => h, fun hc hf => ⟨fun hle => ?_, fun hgt => rfl⟩⟩
        exfalso
        rw [ndirsE_cons] at hle
        omega
      · have hDin : ndirsE (sortBy leBase (dirEntries d.1 d.2)) = ndirsF d.2 := by
          rw [ndirsE_sortBy, ndirsE_dirEntries]
        have IH1 := ihf (sortBy leBase (dirEntries d.1 d.2)) (counter + 1)
        rcases h1 : walkList fuel (sortBy leBase (dirEntries d.1 d.2)) (counter + 1)
          with ⟨r1, c2⟩
        rw [h1] at IH1
        cases r1 with
        | error e =>
          rw [walkList_step_err h20 h1]
          have hmono : counter ≤ c2 := le_trans (Nat.le_succ _) IH1.1
          refine ⟨hmono, fun hc => IH1.2.1 (by omega), fun hc hf => ?_⟩
          have hs := IH1.2.2 (by omega) (by omega)
          rw [hDin] at hs
          constructor
          · intro hle
            exfalso
            rw [ndirsE_cons] at hle
            obtain ⟨ys, hys⟩ := hs.1 (by omega)
            exact absurd hys (by simp)
          · intro hgt
            by_cases hin : counter + 1 + ndirsF d.2 ≤ MAX_RECURSION_DEPTH
            · obtain ⟨ys, hys⟩ := hs.1 hin
              exact absurd hys (by simp)
            · have h2m := hs.2 (by omega)
              simpa using h2m
        | ok ys =>
          have IH2 := ihd c2
          rcases h2 : walkList (fuel + 1) ds c2 with ⟨r2, c3⟩
          rw [h2] at IH2
          have hmono12 : counter ≤ c2 := le_trans (Nat.le_succ _) IH1.1
          cases r2 with
          | error e2 =>
            rw [walkList_step_ok_err h20 h1 h2]
            have hmono : counter ≤ c3 := le_trans hmono12 IH2.1
            refine ⟨hmono, fun hc => IH2.2.1 (IH1.2.1 (by omega)),
              fun hc hf => ?_⟩
            have hs1 := IH1.2.2 (by omega) (by omega)
            rw [hDin] at hs1
            by_cases hin : counter + 1 + ndirsF d.2 ≤ MAX_RECURSION_DEPTH
            · obtain ⟨ys', hys'⟩ := hs1.1 hin
              have hc2 : c2 = counter + 1 + ndirsF d.2 := by
                have := congrArg (fun t => t.2) hys'
                simpa using this
              have hs2 := IH2.2.2 (by omega) (by omega)
              constructor
              · intro hle
                exfalso
                rw [ndirsE_cons] at hle
                obtain ⟨zs, hzs⟩ := hs2.1 (by omega)
                exact absurd hzs (by simp)
              · intro hgt
                by_cases hin2 : c2 + ndirsE ds ≤ MAX_RECURSION_DEPTH
                · obtain ⟨zs, hzs⟩ := hs2.1 hin2
                  exact absurd hzs (by simp)
                · have h3m := hs2.2 (by omega)
                  simpa using h3m
            · have h2m := hs1.2 (by omega)
              simp at h2m
          | ok zs =>
            rw [walkList_step_ok_ok h20 h1 h2]
            have hmono : counter ≤ c3 := le_trans hmono12 IH2.1
            refine ⟨hmono, fun hc => IH2.2.1 (IH1.2.1 (by omega)),
              fun hc hf => ?_⟩
            have hs1 := IH1.2.2 (by omega) (by omega)
            rw [hDin] at hs1
            by_cases hin : counter + 1 + ndirsF d.2 ≤ MAX_RECURSION_DEPTH
            · obtain ⟨ys', hys'⟩ := hs1.1 hin
              have hc2 : c2 = counter + 1 + ndirsF d.2 := by
                have := congrArg (fun t => t.2) hys'
                simpa using this
              have hs2 := IH2.2.2 (by omega) (by omega)
              constructor
              · intro hle
                rw [ndirsE_cons] at hle ⊢
                obtain ⟨zs', hzs'⟩ := hs2.1 (by omega)
                have hc3 : c3 = c2 + ndirsE ds := by
                  have := congrArg (fun t => t.2) hzs'
                  simpa using this
                refine ⟨(d.1, (sortBy leBase (dirEntries d.1 d.2)).map (fun e => e.1),
                  sortBy (fun a b => leStr (basename a) (basename b))
                    (fileEntries d.1 d.2)) :: ys ++ zs, ?_⟩
                have hfin : c3 = counter + ((1 + ndirsF d.2) + ndirsE ds) := by omega
                rw [hfin]
              · intro hgt
                exfalso
                by_cases hin2 : c2 + ndirsE ds ≤ MAX_RECURSION_DEPTH
                · rw [ndirsE_cons] at hgt
                  omega
                · have h3m := hs2.2 (by omega)
                  simp at h3m
            · have h2m := hs1.2 (by omega)
              simp at h2m

/-- C5: a single `walk` invocation issues at most `MAX_RECURSION_DEPTH` (20)
remote listing requests, succeeds whenever the tree needs at most that many
listings, and raises the recursion-budget `RuntimeError` exactly when the tree
requires more listings than the budget. -/
theorem walk_budget_exact (cs : List (Str × FTree)) (rootPath : Str) :
    (walk (.dir cs) rootPath).2 ≤ MAX_RECURSION_DEPTH ∧
    (ndirsT (.dir cs) ≤ MAX_RECURSION_DEPTH →
      ∃ ys, (walk (.dir cs) rootPath).1 = .ok ys) ∧
    ((walk (.dir cs) rootPath).1 = .error .maxRecursion ↔
      MAX_RECURSION_DEPTH < ndirsT (.dir cs)) := by
  have h := walkList_spec (MAX_RECURSION_DEPTH + 1) [(rootPath, cs)] 0
  have hnd : ndirsE [(rootPath, cs)] = ndirsT (.dir cs) := by
    simp [ndirsE, ndirsF, ndirsT]
  have hw : walk (.dir cs) rootPath =
      walkList (MAX_RECURSION_DEPTH + 1) [(rootPath, cs)] 0 := rfl
  have hs := h.2.2 (Nat.zero_le _) (by omega)
  rw [hnd] at hs
  refine ⟨by rw [hw]; exact h.2.1 (Nat.zero_le _), fun hle => ?_, ?_, ?_⟩
  · obtain ⟨ys, hys⟩ := hs.1 (by omega)
    exact ⟨ys, by rw [hw, hys]⟩
  · intro herr
    by_cases hle : ndirsT (.dir cs) ≤ MAX_RECURSION_DEPTH
    · obtain ⟨ys, hys⟩ := hs.1 (by omega)
      rw [hw, hys] at herr
      exact absurd herr (by simp)
    · omega
  · intro hgt
    rw [hw]
    have := hs.2 (by omega)
    simpa using this

/-- Witness for C5 at a concrete one-directory tree (one listing, success)
and at a tree of 21 nested directories (budget exceeded). -/
theorem walk_budget_exact_witness :
    (walk (.dir []) (str ("/r"))).2 ≤ MAX_RECURSION_DEPTH ∧
    (∃ ys, (walk (.dir []) (str ("/r"))).1 = .ok ys) := by
  have h := walk_budget_exact [] (str ("/r"))
  exact ⟨h.1, h.2.1 (by decide)⟩

-- ______________________________________________________________________
-- Wildcard matching (`ls_wildcard`, C7)

/-- A compiled token of the regular expressions `ls_wildcard` builds with
`re.compile(pattern.replace('*', '.*'))`: a literal character, `.` (any
character), or a starred atom. -/
inductive RTok where
  | lit (c : Char)
  | anyc
  | star (t : RTok)

/-- Compile the pattern: `.` becomes any-char, `*` stars the previous atom,
anything else is a literal. -/
def compileRegexAux : List RTok → Str → List RTok
  | acc, [] => acc.reverse
  | acc, c :: rest =>
    if c = '*' then
      match acc with
      | t :: acc2 => compileRegexAux (.star t :: acc2) rest
      | [] => compileRegexAux acc rest
    else if c = '.' then compileRegexAux (.anyc :: acc) rest
    else compileRegexAux (.lit c :: acc) rest

def compileRegex (pat : Str) : List RTok := compileRegexAux [] pat

def matchTok : RTok → Char → Bool
  | .lit c, d => decide (c = d)
  | .anyc, _ => true
  | .star _, _ => false

/-- The backtracking matcher behind `rmatch`, fuel-bounded so that it is
structurally recursive (and so computes by reduction).  Every recursive call
shrinks `ps.length + s.length` by at least one while spending exactly one unit
of fuel, so with fuel at least that sum the cutoff branch is unreachable. -/
def rmatchF : Nat → List RTok → Str → Bool
  | _, [], _ => true
  | 0, _ :: _, _ => false
  | fuel + 1, .star t :: ps, s =>
    rmatchF fuel ps s ||
      (match s with
       | [] => false
       | c :: s2 => matchTok t c && rmatchF fuel (.star t :: ps) s2)
  | _ + 1, _ :: _, [] => false
  | fuel + 1, p :: ps, c :: s2 => matchTok p c && rmatchF fuel ps s2

/-- Python `re.match` semantics: the token list must match a prefix of the
string (anchored at the start only). -/
def rmatch (ps : List RTok) (s : Str) : Bool :=
  rmatchF (ps.length + s.length) ps s

/-- Python `s.replace('*', '.*')`. -/
def replaceStar : Str → Str
  | [] => []
  | c :: rest => (if c = '*' then ['.', '*'] else [c]) ++ replaceStar rest

/-- Python `s.count('/')`. -/
def countSlash (s : Str) : Nat := (s.filter (fun c => c == '/')).length

/-- Python `'*' in s`. -/
def containsStar (s : Str) : Bool := s.any (fun c => c == '*')

/-- Python `s.split('/')` (all fields, empty ones included). -/
def splitAllSlashAux : Str → Str → List Str
  | [], acc => [acc.reverse]
  | c :: rest, acc =>
    if c = '/' then acc.reverse :: splitAllSlashAux rest []
    else splitAllSlashAux rest (c :: acc)

def splitAllSlash (s : Str) : List Str := splitAllSlashAux s []

/-- Python `'/'.join(parts)`. -/
def joinSlash : List Str → Str
  | [] => []
  | [x] => x
  | x :: xs => x ++ '/' :: joinSlash xs

/-- Python `s.rsplit('/', 1)` as a pair (before the last `'/'`, after it).
The callers only apply it to strings containing `'/'`; a slash-free string is
mapped to `([], s)`. -/
def rsplitSlash (s : Str) : Str × Str :=
  match splitOnce ['/'] s.reverse with
  | some (aRev, bRev) => (bRev.reverse, aRev.reverse)
  | none => ([], s)

/-- Nonempty `'/'`-separated segments of a logical path. -/
def pathSegs (lfn : Str) : List Str :=
  (splitAllSlash lfn).filter (fun x => !x.isEmpty)

/-- Resolve a logical path inside the modelled tree. -/
def fsLookup : FTree → List Str → Option FTree
  | t, [] => some t
  | .file, _ :: _ => none
  | .dir cs, seg :: rest =>
    match cs.find? (fun c => c.1 == seg) with
    | some c => fsLookup c.2 rest
    | none => none

/-- Exit code of `xrdfs mgm stat -q IsDir lfn` against the modelled tree:
0 for a directory, 55 for a file, 54 for an absent path. -/
def treeExit (t : FTree) : Str → Str → Nat := fun _mgm lfn =>
  match fsLookup t (pathSegs lfn) with
  | some (.dir _) => 0
  | some .file => 55
  | none => 54

/-- Python `_isdir_xrootd(directory)`: the directory-predicate query exits 0. -/
def isdir_xrootd (t : FTree) (dflt : Option Str) (directory : Str) :
    Except Err Bool :=
  match split_mgm dflt none directory with
  | .error e => .error e
  | .ok (mgm, lfn) => .ok (treeExit t mgm lfn == 0)

/-- Python `_listdir_xrootd(directory, stat=False)` against the modelled tree:
`xrdfs mgm ls lfn` prints one logical path per entry, each then `format`ed
with the mgm.  A non-directory makes the tool fail (`run_command` raises). -/
def listdir_xrootd (t : FTree) (dflt : Option Str) (directory : Str) :
    Except Err (List Str) :=
  match split_mgm dflt none directory with
  | .error e => .error e
  | .ok (mgm, lfn) =>
    match fsLookup t (pathSegs lfn) with
    | some (.dir cs) => cs.mapM (fun c => format dflt (some mgm) (joinPath lfn c.1))
    | _ => .error (.calledProcess 1)

/-- Python `listdir(directory, stat=False, assume_directory)` with caching
disabled (`USE_CACHE` is off by default; the cache layer itself is modelled by
`listdirQ`). -/
def listdir_fs (t : FTree) (dflt : Option Str) (directory : Str)
    (assumeDir : Bool) : Except Err (List Str) :=
  if assumeDir then listdir_xrootd t dflt directory
  else
    match isdir_xrootd t dflt directory with
    | .error e => .error e
    | .ok b => if b then listdir_xrootd t dflt directory else .error .notADirectory

/-- Python `ls(path, stat=False, assume_directory, no_expand_directory)`:
format the path, classify it, then raise for a missing path, return the
(expanded or unexpanded) directory contents, or the file itself. -/
def ls_fs (t : FTree) (dflt : Option Str) (path : Str)
    (assumeDir noExpand : Bool) : Except Err (List Str) :=
  match format dflt none path with
  | .error e => .error e
  | .ok fpath =>
    match (if assumeDir then .ok 1
      else is_file_or_dir_xrootd dflt (treeExit t) fpath : Except Err Nat) with
    | .error e => .error e
    | .ok status =>
      if status = 0 then .error .pathNotExist
      else if status = 1 then
        if noExpand then .ok [fpath] else listdir_fs t dflt fpath true
      else .ok [fpath]

/-- The walk-based branch of `ls_wildcard` (with `stat=False`): `walk(base)`
with the loop body fused into the recursion — at each yielded directory the
consumer filters the yielded directory list against the pattern trimmed to the
current depth (pruning before the generator descends), collects the matching
directories and files once the traversal depth equals the pattern depth, and
clears the directory list there.  Same budget discipline as `walkList`. -/
def wildList (pat : Str) (patLevel : Nat) : Nat →
    List (Str × List (Str × FTree)) → Nat → Except Err (List Str) × Nat
  | _, [], counter => (.ok [], counter)
  | 0, _ :: _, counter =>
    if MAX_RECURSION_DEPTH ≤ counter then (.error .maxRecursion, counter)
    else (.error .fuelOut, counter)
  | fuel + 1, d :: ds, counter =>
    if MAX_RECURSION_DEPTH ≤ counter then (.error .maxRecursion, counter)
    else
      let files := sortBy (fun a b => leStr (basename a) (basename b))
        (fileEntries d.1 d.2)
      let dirs := sortBy leBase (dirEntries d.1 d.2)
      let level := countSlash d.1
      let rex := compileRegex (replaceStar
        (joinSlash ((splitAllSlash pat).take (level + 2))))
      let dirs2 := dirs.filter (fun e => rmatch rex e.1)
      let here :=
        if level + 1 = patLevel then
          dirs2.map (fun e => e.1) ++ files.filter (fun f => rmatch rex f)
        else []
      let dirs3 := if level + 1 = patLevel then [] else dirs2
      match wildList pat patLevel fuel dirs3 (counter + 1) with
      | (.error e, cF) => (.error e, cF)
      | (.ok ms, c2) =>
        match wildList pat patLevel (fuel + 1) ds c2 with
        | (.error e, cF) => (.error e, cF)
        | (.ok ms2, c3) => (.ok (here ++ ms ++ ms2), c3)
termination_by fuel ds _ => (fuel, ds.length)

/-- Python `ls_wildcard(pattern, stat=False)`: no wildcard means a plain
unexpanded `ls`; a wildcard only in the last segment takes the fast path (one
listing, then client-side regex filtering on basenames, skipped entirely for a
bare `*`); otherwise the pruned walk from the fixed prefix before the first
wildcard. -/
def ls_wildcard (t : FTree) (dflt : Option Str) (pattern0 : Str) :
    Except Err (List Str) :=
  match format dflt none pattern0 with
  | .error e => .error e
  | .ok pattern =>
    if containsStar pattern = false then ls_fs t dflt pattern false true
    else if containsStar (rsplitSlash pattern).1 = false then
      match ls_fs t dflt (rsplitSlash pattern).1 false false with
      | .error e => .error e
      | .ok contents =>
        if (rsplitSlash pattern).2 = str ("*") then .ok contents
        else .ok (contents.filter (fun c =>
          rmatch (compileRegex (replaceStar (rsplitSlash pattern).2)) (basename c)))
    else
      let patLevel := countSlash pattern
      let base :=
        match splitOnce ['*'] pattern with
        | some (pre, _) => (rsplitSlash pre).1
        | none => pattern
      match format dflt none base with
      | .error e => .error e
      | .ok basePath =>
        match split_mgm dflt none basePath with
        | .error e => .error e
        | .ok (_, lfn) =>
          match fsLookup t (pathSegs lfn) with
          | some (.dir cs) =>
            (wildList pattern patLevel (MAX_RECURSION_DEPTH + 1)
              [(basePath, cs)] 0).1
          | _ => .error .notADirectory

/-- The concrete tree of C7: files `/a/b/x.txt`, `/a/b/y.root` and
`/a/b/c/z.txt`. -/
def demoTree : FTree :=
  FTree.dir [
    (str ("a"), FTree.dir [
      (str ("b"), FTree.dir [
        (str ("x.txt"), FTree.file),
        (str ("y.root"), FTree.file),
        (str ("c"), FTree.dir [
          (str ("z.txt"), FTree.file)])])])]

set_option maxRecDepth 8000 in
/-- C7: `ls_wildcard` on the pattern `/a/b/*.txt` over a tree containing
`/a/b/x.txt`, `/a/b/y.root` and `/a/b/c/z.txt` returns exactly the
one-element list holding (the formatted address of) `/a/b/x.txt`. -/
theorem ls_wildcard_concrete :
    ls_wildcard demoTree (some (str ("root://server"))) (str ("/a/b/*.txt")) =
      .ok [str ("root://server//a/b/x.txt")] := by
  rfl

-- ______________________________________________________________________
-- MergeReduceEngine (`_hadd_chunks`, C6)

/-- Files in the merge model: the caller's inputs (by index), intermediate
chunk files `chunk{i}.root` inside a scratch directory (by directory id and
chunk index), and the final destination. -/
inductive HFile where
  | inp (i : Nat)
  | chunkF (dir i : Nat)
  | out
deriving DecidableEq

/-- Observable filesystem effects of `_hadd_chunks`, in order. -/
inductive HEvent where
  | mkdir (d : Nat)
  | hadd (srcs : List HFile) (dst : HFile)
  | rmtree (d : Nat)
deriving DecidableEq

/-- The chunk merges submitted to the worker pool, run in order and stopping
at the first failing `hadd` (the pool's `map` re-raises the worker's
exception).  `failP` says which `hadd` invocations fail. -/
def runChunks (failP : List HFile → HFile → Bool) :
    List (List HFile × HFile) → List HEvent × Bool
  | [] => ([], true)
  | c :: cs =>
    if failP c.1 c.2 then ([.hadd c.1 c.2], false)
    else
      let r := runChunks failP cs
      (.hadd c.1 c.2 :: r.1, r.2)

/-- Python `_hadd_chunks(root_files, dst, n_threads, chunk_size, tmpdir,
dry=False)`.  Scratch directories are identified by a counter modelling the
per-call unique `uuid4` name; the result is (outcome, events in order, next
fresh directory id).  Fewer inputs than `chunk_size` is the base case: one
direct `hadd`.  Otherwise the inputs are cut into `ceil(n/chunk_size)` chunks,
a unique scratch directory is created, the chunks are merged into intermediate
files there, the recursion merges the intermediates, and the `finally:` block
removes the scratch directory whether the merges succeeded or raised.  (With
an empty input list the source's own `raise` line references the undefined
name `src`, hence `.nameErr`.)  The fuel only bounds the recursion depth of
the embedding; the chunk count is below the input count whenever chunking
happens, so the input length is always enough fuel. -/
def hadd_chunks (failP : List HFile → HFile → Bool) (chunk_size : Nat) :
    Nat → List HFile → HFile → Nat → Except Err Unit × List HEvent × Nat
  | 0, root_files, dst, nextDir =>
    if root_files.length = 0 then (.error .nameErr, [], nextDir)
    else if root_files.length < chunk_size then
      if failP root_files dst then
        (.error .runtimeErr, [.hadd root_files dst], nextDir)
      else (.ok (), [.hadd root_files dst], nextDir)
    else (.error .fuelOut, [], nextDir)
  | fuel + 1, root_files, dst, nextDir =>
    if root_files.length = 0 then (.error .nameErr, [], nextDir)
    else if root_files.length < chunk_size then
      if failP root_files dst then
        (.error .runtimeErr, [.hadd root_files dst], nextDir)
      else (.ok (), [.hadd root_files dst], nextDir)
    else
      let n_chunks := (root_files.length + chunk_size - 1) / chunk_size
      let d := nextDir
      let chunks := (List.range n_chunks).map (fun i =>
        ((root_files.drop (i * chunk_size)).take chunk_size, HFile.chunkF d i))
      let r0 := runChunks failP chunks
      if r0.2 then
        let r := hadd_chunks failP chunk_size fuel
          (chunks.map (fun c => c.2)) dst (d + 1)
        (r.1, .mkdir d :: r0.1 ++ r.2.1 ++ [.rmtree d], r.2.2)
      else (.error .runtimeErr, .mkdir d :: r0.1 ++ [.rmtree d], d + 1)

/-- Occurrences of `mkdir d` in an event list. -/
def countMk (d : Nat) : List HEvent → Nat
  | [] => 0
  | .mkdir d2 :: evs => (if d2 = d then 1 else 0) + countMk d evs
  | .hadd _ _ :: evs => countMk d evs
  | .rmtree _ :: evs => countMk d evs

/-- Occurrences of `rmtree d` in an event list. -/
def countRm (d : Nat) : List HEvent → Nat
  | [] => 0
  | .rmtree d2 :: evs => (if d2 = d then 1 else 0) + countRm d evs
  | .hadd _ _ :: evs => countRm d evs
  | .mkdir _ :: evs => countRm d evs

theorem countMk_append (d : Nat) (a b : List HEvent) :
    countMk d (a ++ b) = countMk d a + countMk d b := by
  induction a with
  | nil => simp [countMk]
  | cons e evs ih => cases e <;> simp [countMk, ih, Nat.add_assoc]

theorem countRm_append (d : Nat) (a b : List HEvent) :
    countRm d (a ++ b) = countRm d a + countRm d b := by
  induction a with
  | nil => simp [countRm]
  | cons e evs ih => cases e <;> simp [countRm, ih, Nat.add_assoc]

theorem runChunks_counts (failP : List HFile → HFile → Bool)
    (cs : List (List HFile × HFile)) (d : Nat) :
    countMk d (runChunks failP cs).1 = 0 ∧ countRm d (runChunks failP cs).1 = 0 := by
  induction cs with
  | nil => simp [runChunks, countMk, countRm]
  | cons c cs ih =>
    simp only [runChunks]
    split
    · simp [countMk, countRm]
    · simp [countMk, countRm, ih.1, ih.2]

/-- Every scratch directory `_hadd_chunks` creates is also removed, whatever
the hadd tool does (the `finally:` block). -/
theorem hadd_chunks_cleanup (failP : List HFile → HFile → Bool)
    (chunk_size : Nat) : ∀ (fuel : Nat) (root_files : List HFile) (dst : HFile)
    (nextDir d : Nat),
    countMk d (hadd_chunks failP chunk_size fuel root_files dst nextDir).2.1 =
    countRm d (hadd_chunks failP chunk_size fuel root_files dst nextDir).2.1 := by
  intro fuel
  induction fuel with
  | zero =>
    intro root_files dst nextDir d
    simp only [hadd_chunks]
    split
    · simp [countMk, countRm]
    · split
      · split <;> simp [countMk, countRm]
      · simp [countMk, countRm]
  | succ fuel ih =>
    intro root_files dst nextDir d
    simp only [hadd_chunks]
    split
    · simp [countMk, countRm]
    · split
      · split <;> simp [countMk, countRm]
      · split
        · have hrc := runChunks_counts failP
            ((List.range ((root_files.length + chunk_size - 1) / chunk_size)).map
              (fun i => ((root_files.drop (i * chunk_size)).take chunk_size,
                HFile.chunkF nextDir i))) d
          have hih := ih (((List.range
            ((root_files.length + chunk_size - 1) / chunk_size)).map
              (fun i => ((root_files.drop (i * chunk_size)).take chunk_size,
                HFile.chunkF nextDir i))).map (fun c => c.2)) dst (nextDir + 1) d
          simp only [countMk, countRm, List.append_eq, countMk_append,
            countRm_append, hrc.1, hrc.2, hih]
          omega
        · have hrc := runChunks_counts failP
            ((List.range ((root_files.length + chunk_size - 1) / chunk_size)).map
              (fun i => ((root_files.drop (i * chunk_size)).take chunk_size,
                HFile.chunkF nextDir i))) d
          simp only [countMk, countRm, List.append_eq, countMk_append,
            countRm_append, hrc.1, hrc.2]
          omega

/-- The 450 concrete input files of C6. -/
def inputs450 : List HFile := (List.range 450).map HFile.inp

/-- C6: merging 450 inputs with `chunk_size = 200` creates one process-unique
scratch directory, performs exactly three intermediate chunk merges over 200,
200 and 50 inputs, then exactly one final merge of the three intermediates
into the destination, and removes the scratch directory last (first conjunct:
the complete ordered event trace).  Moreover, for every failure pattern of the
underlying hadd tool, every scratch directory created during the call is also
removed before it returns (second conjunct), so the scratch directory no
longer exists afterwards whether the call succeeded or raised. -/
theorem hadd_chunks_450 :
    hadd_chunks (fun _ _ => false) 200 450 inputs450 .out 0 =
      (.ok (), [.mkdir 0,
        .hadd (inputs450.take 200) (.chunkF 0 0),
        .hadd ((inputs450.drop 200).take 200) (.chunkF 0 1),
        .hadd ((inputs450.drop 400).take 200) (.chunkF 0 2),
        .hadd [.chunkF 0 0, .chunkF 0 1, .chunkF 0 2] .out,
        .rmtree 0], 1) ∧
    ∀ (failP : List HFile → HFile → Bool) (d : Nat),
      countMk d (hadd_chunks failP 200 450 inputs450 .out 0).2.1 =
      countRm d (hadd_chunks failP 200 450 inputs450 .out 0).2.1 :=
  ⟨by set_option maxRecDepth 40000 in rfl,
   fun failP d => hadd_chunks_cleanup failP 200 450 inputs450 .out 0 d⟩

end Seutils
